import Mathlib

/-!
Verification development for the distributed cumulant orchestration module
`cumulants_dist.py` of SpectralLDA.

The module is embedded shallowly:

* word-count vectors and matrices become lists of rationals (numpy arrays of
  floats, with exact arithmetic);
* the three orchestrators (`moment1_dist`, `prod_m2_x_dist`, `whiten_m3_dist`)
  become pure functions of their arguments plus the calling worker's rank,
  returning the ordered trace of reduction-store operations they perform
  together with either the returned tensor or the Python exception raised
  (`AssertionError` for a failed `assert`, `TypeError` for unpacking the
  `None` returned by `nth` when the rank has no partition);
* the distributed reduction store (`mx.kvstore`) follows the contract of the
  spec: `init` registers a zero tensor, each worker pushes once, and `pull`
  returns the elementwise sum of all workers' contributions, identical at
  every worker.  In the SPMD model every worker `w < n_partitions` runs the
  same code, so the pulled value is the sum over all partitions of the local
  contribution kernel applied to that partition;
* the external collaborators imported from `cumulants` and
  `partitioned_data` (not part of the reviewed unit) are modelled from the
  spec where it gives their behaviour, and kept as explicit function
  parameters where it only gives their interface.
-/

set_option maxHeartbeats 1000000

namespace SpectralLDA

/-- Vectors are lists of rationals (a numpy 1-d array). -/
abbrev Vec := List ℚ

/-- Matrices are lists of rows (a numpy 2-d array). -/
abbrev Mat := List (List ℚ)

/-- Elementwise sum of two vectors. -/
def vadd (a b : Vec) : Vec := List.zipWith (fun x y => x + y) a b

/-- Zero vector of a given length, `np.zeros((n,))`. -/
def vzero (n : ℕ) : Vec := List.replicate n 0

/-- Scalar multiple of a vector. -/
def vsmul (c : ℚ) (v : Vec) : Vec := v.map (fun x => c * x)

/-- Sum of a list of length-`n` vectors, starting from the zero vector. -/
def vsum (n : ℕ) (l : List Vec) : Vec := l.foldr vadd (vzero n)

/-- Row-vector by matrix product `v.dot(M)` where `M` is a list of rows:
the result is the sum of the rows of `M` scaled by the entries of `v`. -/
def dotMat (v : Vec) (m : Mat) : Vec :=
  vsum (m.headD []).length (List.zipWith (fun c row => vsmul c row) v m)

/-- Outer product `np.outer(a, b)` as a matrix of rows. -/
def outer (a b : Vec) : Mat := a.map (fun x => b.map (fun y => x * y))

/-- Elementwise sum of two matrices. -/
def matAdd (a b : Mat) : Mat := List.zipWith vadd a b

/-- Elementwise difference of two matrices. -/
def matSub (a b : Mat) : Mat :=
  List.zipWith (fun r s => List.zipWith (fun x y => x - y) r s) a b

/-- Scalar multiple of a matrix. -/
def matSmul (c : ℚ) (a : Mat) : Mat := a.map (vsmul c)

/-- Zero matrix of a given shape, `np.zeros((m, k))`. -/
def zeroMat (m k : ℕ) : Mat := List.replicate m (vzero k)

/-- Sum of a list of `m`-by-`k` matrices, starting from the zero matrix. -/
def msum (m k : ℕ) (l : List Mat) : Mat := l.foldr matAdd (zeroMat m k)

/-- Second component of a 2-d array's shape: the common row length
(`arr.shape[1]`; numpy arrays are rectangular). -/
def vocabOf (m : Mat) : ℕ := (m.headD []).length

/-- Translation of `nth(iterable, n, default=None)` from the source:
the `n`-th item of the sequence, or `none` past its end. -/
def nth {α : Type} (l : List α) (n : ℕ) : Option α := l[n]?

/-- Modelled from the spec: the Partition Assignment collaborator
`equal_partitions(total_items, n_partitions)` (from `cumulants`, outside the
reviewed unit) yields an ordered sequence of exactly `n_partitions` disjoint
half-open ranges covering `[0, total_items)`; every partition holds
`total_items / n_partitions` items except the last, which also holds the
remainder rows. -/
def equal_partitions (total_items n_partitions : ℕ) : List (ℕ × ℕ) :=
  (List.range n_partitions).map (fun i =>
    (i * (total_items / n_partitions),
      if i = n_partitions - 1 then total_items
      else (i + 1) * (total_items / n_partitions)))

/-- Modelled from the spec: the Partition Loader collaborator
`pload(collection_ref, start, end)` (from `partitioned_data`, outside the
reviewed unit) returns the rows of the collection with indices in
`[start, end)`. -/
def pload (docs : Mat) (start stop : ℕ) : Mat :=
  (docs.drop start).take (stop - start)

/-- Modelled from the spec: the first-moment Local Contribution Kernel
`contrib_m1(partition, n_docs)` (from `cumulants`, outside the reviewed unit)
returns the sum of the local rows divided by the total document count, so
that contributions from all workers sum to the global first moment.  The
vocabulary size is passed explicitly to give the empty sum its length. -/
def contrib_m1 (vocab : ℕ) (partition : Mat) (n_docs : ℕ) : Vec :=
  vsmul (1 / (n_docs : ℚ)) (vsum vocab partition)

/-- Reduction-store operations, in the order the orchestrators perform them.
`init` registers a key with a zero tensor of the given shape. -/
inductive StoreEvent : Type where
  | init (key : ℕ) (shape : List ℕ)
  | push (key : ℕ)
  | pull (key : ℕ)
  | close
  deriving DecidableEq, Repr

/-- Key for the first moment. -/
def KEY_M1 : ℕ := 100

/-- Key for the product of M2 with the test matrix. -/
def KEY_PROD_M2X : ℕ := 110

/-- Key for the whitened raw third-moment term. -/
def KEY_WHITENED_E3 : ℕ := 120

/-- Key for the whitened second-moment-times-first-moment term. -/
def KEY_WHITENED_E2M1 : ℕ := 130

/-- Globally reduced first moment: the elementwise sum over all partitions of
the local first-moment contributions — the value `pull(KEY_M1)` returns at
every worker (the zero tensor registered by `init` plus all pushes). -/
def reducedM1 (docs : Mat) (n_partitions : ℕ) : Vec :=
  vsum (vocabOf docs)
    ((equal_partitions docs.length n_partitions).map
      (fun pr => contrib_m1 (vocabOf docs) (pload docs pr.1 pr.2) docs.length))

/-- Embedding of `moment1_dist(docs, n_partitions)` executed at worker
`rank`: the asserts of lines 39-40, then `init` of the first-moment key, the
partition lookup via `nth` (unpacking `None` raises a `TypeError`), the
local contribution push, the all-reduce pull, and `close`. -/
def moment1_dist (docs : Mat) (n_partitions rank : ℕ) :
    List StoreEvent × Except String Vec :=
  let n_docs := docs.length
  let vocab_size := vocabOf docs
  if 1 ≤ n_docs ∧ 1 ≤ vocab_size then
    if 1 ≤ n_partitions ∧ n_partitions ≤ n_docs then
      match nth (equal_partitions n_docs n_partitions) rank with
      | some _ =>
          ([StoreEvent.init KEY_M1 [vocab_size], StoreEvent.push KEY_M1,
            StoreEvent.pull KEY_M1, StoreEvent.close],
            Except.ok (reducedM1 docs n_partitions))
      | none => ([StoreEvent.init KEY_M1 [vocab_size]], Except.error "TypeError")
    else ([], Except.error "AssertionError")
  else ([], Except.error "AssertionError")

/-- Globally reduced product of E2 with the test matrix: the sum over all
partitions of the local contributions of the kernel `contrib_prod_e2_x`
(kept as the explicit parameter `kE2X`, since the spec only gives its
interface), starting from the zero tensor registered by `init` — the value
`pull(KEY_PROD_M2X)` returns at every worker. -/
def reducedProdE2X (docs test_x : Mat) (n_partitions : ℕ)
    (kE2X : Mat → Mat → ℕ → Mat) : Mat :=
  msum (vocabOf docs) (vocabOf test_x)
    ((equal_partitions docs.length n_partitions).map
      (fun pr => kE2X (pload docs pr.1 pr.2) test_x docs.length))

/-- Embedding of the nested `adjust(prod_e2x, docs_m1, test_x, alpha0)` of
`prod_m2_x_dist` (lines 76-79): subtract
`alpha0 / (alpha0 + 1) * np.outer(docs_m1, docs_m1.dot(test_x))` from the
reduced product. -/
def adjustProd (prod_e2x : Mat) (docs_m1 : Vec) (test_x : Mat)
    (alpha0 : ℚ) : Mat :=
  matSub prod_e2x
    (matSmul (alpha0 / (alpha0 + 1)) (outer docs_m1 (dotMat docs_m1 test_x)))

/-- Reduction scope of `prod_m2_x_dist` (lines 94-109), entered after the
asserts and the optional first-moment computation: `init` the product key,
look up this rank's partition, push the local contribution, pull the
all-reduce, close, and return the adjusted result.  `pre` is the event trace
already produced by a recursive first-moment orchestration. -/
def prodScope (docs test_x : Mat) (alpha0 : ℚ) (docs_m1 : Vec)
    (n_partitions rank : ℕ) (kE2X : Mat → Mat → ℕ → Mat)
    (pre : List StoreEvent) : List StoreEvent × Except String Mat :=
  let evs := pre ++ [StoreEvent.init KEY_PROD_M2X [vocabOf docs, vocabOf test_x]]
  match nth (equal_partitions docs.length n_partitions) rank with
  | some _ =>
      (evs ++ [StoreEvent.push KEY_PROD_M2X, StoreEvent.pull KEY_PROD_M2X,
        StoreEvent.close],
        Except.ok (adjustProd (reducedProdE2X docs test_x n_partitions kE2X)
          docs_m1 test_x alpha0))
  | none => (evs, Except.error "TypeError")

/-- Embedding of `prod_m2_x_dist(docs, test_x, alpha0, docs_m1, n_partitions)`
executed at worker `rank`: the asserts of lines 83-88 in source order, then
the recursive first-moment computation when `docs_m1` is absent (line 92),
then the reduction scope for the product key. -/
def prod_m2_x_dist (docs test_x : Mat) (alpha0 : ℚ) (docs_m1 : Option Vec)
    (n_partitions rank : ℕ) (kE2X : Mat → Mat → ℕ → Mat) :
    List StoreEvent × Except String Mat :=
  let n_docs := docs.length
  let vocab_size := vocabOf docs
  let num_factors := vocabOf test_x
  if 1 ≤ n_docs ∧ 1 ≤ vocab_size then
    if 1 ≤ n_partitions ∧ n_partitions ≤ n_docs then
      if vocab_size = test_x.length ∧ 1 ≤ num_factors then
        if docs_m1.all (fun v => v.length == vocab_size) then
          if 0 < alpha0 then
            match docs_m1 with
            | some m1 => prodScope docs test_x alpha0 m1 n_partitions rank kE2X []
            | none =>
                let m1r := moment1_dist docs n_partitions rank
                match m1r.2 with
                | Except.ok m1 =>
                    prodScope docs test_x alpha0 m1 n_partitions rank kE2X m1r.1
                | Except.error e => (m1r.1, Except.error e)
          else ([], Except.error "AssertionError")
        else ([], Except.error "AssertionError")
      else ([], Except.error "AssertionError")
    else ([], Except.error "AssertionError")
  else ([], Except.error "AssertionError")

/-- Globally reduced whitened raw third-moment term: the sum over all
partitions of the local contributions of the kernel `contrib_whiten_e3`
(parameter `kE3`), starting from the registered zero tensor. -/
def reducedE3 (docs whn : Mat) (n_partitions : ℕ)
    (kE3 : Mat → Mat → ℕ → Mat) : Mat :=
  msum (vocabOf whn) (vocabOf whn ^ 2)
    ((equal_partitions docs.length n_partitions).map
      (fun pr => kE3 (pload docs pr.1 pr.2) whn docs.length))

/-- Globally reduced whitened E2-times-M1 cross term: the sum over all
partitions of the local contributions of the kernel `contrib_whiten_e2m1`
(parameter `kE2M1`), starting from the registered zero tensor. -/
def reducedE2M1 (docs : Mat) (docs_m1 : Vec) (whn : Mat) (n_partitions : ℕ)
    (kE2M1 : Mat → Vec → Mat → ℕ → Mat) : Mat :=
  msum (vocabOf whn) (vocabOf whn ^ 2)
    ((equal_partitions docs.length n_partitions).map
      (fun pr => kE2M1 (pload docs pr.1 pr.2) docs_m1 whn docs.length))

/-- Triple outer product of a length-`k` vector flattened to `k`-by-`k²`,
`np.einsum('i,j,k->ijk', w, w, w).reshape((k, -1))`: the row at index `i`
is `w i` times the flattened outer product of `w` with itself. -/
def whitenedM1cube (w : Vec) : Mat :=
  w.map (fun a => ((outer w w).flatten).map (fun x => a * x))

/-- Embedding of the nested
`adjust(whitened_e3, whitened_e2m1, docs_m1, whn, alpha0)` of
`whiten_m3_dist` (lines 132-143): combine the two reduced tensors with the
whitened first-moment cube using the coefficients `alpha0 / (alpha0 + 2)`
and `2 * alpha0 ** 2 / (alpha0 + 1) / (alpha0 + 2)`. -/
def adjustWhiten (whitened_e3 whitened_e2m1 : Mat) (docs_m1 : Vec)
    (whn : Mat) (alpha0 : ℚ) : Mat :=
  let whitened_m1 := dotMat docs_m1 whn
  let coeff1 := alpha0 / (alpha0 + 2)
  let coeff2 := 2 * alpha0 ^ 2 / (alpha0 + 1) / (alpha0 + 2)
  matAdd (matSub whitened_e3 (matSmul coeff1 whitened_e2m1))
    (matSmul coeff2 (whitenedM1cube whitened_m1))

/-- Reduction scope of `whiten_m3_dist` (lines 158-180), entered after the
asserts and the optional first-moment computation: `init` both whitened
keys, look up this rank's partition, push both local contributions, pull
both all-reduces, close, and return the adjusted combination. -/
def whitenScope (docs whn : Mat) (alpha0 : ℚ) (docs_m1 : Vec)
    (n_partitions rank : ℕ) (kE3 : Mat → Mat → ℕ → Mat)
    (kE2M1 : Mat → Vec → Mat → ℕ → Mat) (pre : List StoreEvent) :
    List StoreEvent × Except String Mat :=
  let k := vocabOf whn
  let evs := pre ++ [StoreEvent.init KEY_WHITENED_E3 [k, k ^ 2],
    StoreEvent.init KEY_WHITENED_E2M1 [k, k ^ 2]]
  match nth (equal_partitions docs.length n_partitions) rank with
  | some _ =>
      (evs ++ [StoreEvent.push KEY_WHITENED_E3, StoreEvent.push KEY_WHITENED_E2M1,
        StoreEvent.pull KEY_WHITENED_E3, StoreEvent.pull KEY_WHITENED_E2M1,
        StoreEvent.close],
        Except.ok (adjustWhiten (reducedE3 docs whn n_partitions kE3)
          (reducedE2M1 docs docs_m1 whn n_partitions kE2M1)
          docs_m1 whn alpha0))
  | none => (evs, Except.error "TypeError")

/-- Embedding of `whiten_m3_dist(docs, whn, alpha0, docs_m1, n_partitions)`
executed at worker `rank`: the asserts of lines 147-152 in source order —
note line 148 checks only `n_partitions <= n_docs`, with no lower bound —
then the recursive first-moment computation when `docs_m1` is absent
(line 156), then the reduction scope for the two whitened keys. -/
def whiten_m3_dist (docs whn : Mat) (alpha0 : ℚ) (docs_m1 : Option Vec)
    (n_partitions rank : ℕ) (kE3 : Mat → Mat → ℕ → Mat)
    (kE2M1 : Mat → Vec → Mat → ℕ → Mat) :
    List StoreEvent × Except String Mat :=
  let n_docs := docs.length
  let vocab_size := vocabOf docs
  let num_factors := vocabOf whn
  if 1 ≤ n_docs ∧ 1 ≤ vocab_size then
    if n_partitions ≤ n_docs then
      if vocab_size = whn.length ∧ 1 ≤ num_factors then
        if docs_m1.all (fun v => v.length == vocab_size) then
          if 0 < alpha0 then
            match docs_m1 with
            | some m1 =>
                whitenScope docs whn alpha0 m1 n_partitions rank kE3 kE2M1 []
            | none =>
                let m1r := moment1_dist docs n_partitions rank
                match m1r.2 with
                | Except.ok m1 =>
                    whitenScope docs whn alpha0 m1 n_partitions rank kE3 kE2M1 m1r.1
                | Except.error e => (m1r.1, Except.error e)
          else ([], Except.error "AssertionError")
        else ([], Except.error "AssertionError")
      else ([], Except.error "AssertionError")
    else ([], Except.error "AssertionError")
  else ([], Except.error "AssertionError")

theorem equal_partitions_length (n p : ℕ) : (equal_partitions n p).length = p := by
  simp [equal_partitions]

theorem nth_equal_partitions (n p r : ℕ) (hr : r < p) :
    nth (equal_partitions n p) r =
      some (r * (n / p), if r = p - 1 then n else (r + 1) * (n / p)) := by
  simp [nth, equal_partitions, List.getElem?_map, List.getElem?_range, hr]

theorem moment1_dist_eval (docs : Mat) (p rank : ℕ)
    (hnd : 1 ≤ docs.length) (hv : 1 ≤ vocabOf docs)
    (hp1 : 1 ≤ p) (hpn : p ≤ docs.length) (hr : rank < p) :
    moment1_dist docs p rank =
      ([StoreEvent.init KEY_M1 [vocabOf docs], StoreEvent.push KEY_M1,
        StoreEvent.pull KEY_M1, StoreEvent.close],
        Except.ok (reducedM1 docs p)) := by
  simp only [moment1_dist]
  rw [if_pos ⟨hnd, hv⟩, if_pos ⟨hp1, hpn⟩, nth_equal_partitions _ _ _ hr]

theorem prodScope_eval (docs test_x : Mat) (alpha0 : ℚ) (m1 : Vec)
    (p rank : ℕ) (kE2X : Mat → Mat → ℕ → Mat) (pre : List StoreEvent)
    (hr : rank < p) :
    prodScope docs test_x alpha0 m1 p rank kE2X pre =
      (pre ++ [StoreEvent.init KEY_PROD_M2X [vocabOf docs, vocabOf test_x],
        StoreEvent.push KEY_PROD_M2X, StoreEvent.pull KEY_PROD_M2X,
        StoreEvent.close],
        Except.ok (adjustProd (reducedProdE2X docs test_x p kE2X)
          m1 test_x alpha0)) := by
  simp [prodScope, nth_equal_partitions _ _ _ hr]

theorem whitenScope_eval (docs whn : Mat) (alpha0 : ℚ) (m1 : Vec)
    (p rank : ℕ) (kE3 : Mat → Mat → ℕ → Mat)
    (kE2M1 : Mat → Vec → Mat → ℕ → Mat) (pre : List StoreEvent)
    (hr : rank < p) :
    whitenScope docs whn alpha0 m1 p rank kE3 kE2M1 pre =
      (pre ++ [StoreEvent.init KEY_WHITENED_E3 [vocabOf whn, vocabOf whn ^ 2],
        StoreEvent.init KEY_WHITENED_E2M1 [vocabOf whn, vocabOf whn ^ 2],
        StoreEvent.push KEY_WHITENED_E3, StoreEvent.push KEY_WHITENED_E2M1,
        StoreEvent.pull KEY_WHITENED_E3, StoreEvent.pull KEY_WHITENED_E2M1,
        StoreEvent.close],
        Except.ok (adjustWhiten (reducedE3 docs whn p kE3)
          (reducedE2M1 docs m1 whn p kE2M1) m1 whn alpha0)) := by
  simp [whitenScope, nth_equal_partitions _ _ _ hr]

theorem prod_m2_x_dist_eval (docs test_x : Mat) (alpha0 : ℚ)
    (dm1 : Option Vec) (p rank : ℕ) (kE2X : Mat → Mat → ℕ → Mat)
    (hnd : 1 ≤ docs.length) (hv : 1 ≤ vocabOf docs)
    (hp1 : 1 ≤ p) (hpn : p ≤ docs.length)
    (hxv : vocabOf docs = test_x.length) (hk : 1 ≤ vocabOf test_x)
    (hm1 : ∀ v, dm1 = some v → v.length = vocabOf docs)
    (ha : 0 < alpha0) (hr : rank < p) :
    prod_m2_x_dist docs test_x alpha0 dm1 p rank kE2X =
      ((if dm1.isSome then ([] : List StoreEvent) else
          [StoreEvent.init KEY_M1 [vocabOf docs], StoreEvent.push KEY_M1,
            StoreEvent.pull KEY_M1, StoreEvent.close]) ++
        [StoreEvent.init KEY_PROD_M2X [vocabOf docs, vocabOf test_x],
          StoreEvent.push KEY_PROD_M2X, StoreEvent.pull KEY_PROD_M2X,
          StoreEvent.close],
        Except.ok (adjustProd (reducedProdE2X docs test_x p kE2X)
          (dm1.getD (reducedM1 docs p)) test_x alpha0)) := by
  cases dm1 with
  | none =>
      simp only [prod_m2_x_dist]
      rw [if_pos ⟨hnd, hv⟩, if_pos ⟨hp1, hpn⟩, if_pos ⟨hxv, hk⟩,
        if_pos (show Option.all (fun v => List.length v == vocabOf docs) none =
          true from rfl), if_pos ha]
      simp [moment1_dist_eval docs p rank hnd hv hp1 hpn hr,
        prodScope_eval docs test_x alpha0 _ p rank kE2X _ hr]
  | some m1 =>
      have hlen : (m1.length == vocabOf docs) = true := by
        simp [hm1 m1 rfl]
      simp only [prod_m2_x_dist]
      rw [if_pos ⟨hnd, hv⟩, if_pos ⟨hp1, hpn⟩, if_pos ⟨hxv, hk⟩]
      rw [show (Option.all (fun v => v.length == vocabOf docs) (some m1)) = true
        from hlen, if_pos rfl, if_pos ha]
      simp [prodScope_eval docs test_x alpha0 m1 p rank kE2X [] hr]

theorem whiten_m3_dist_eval (docs whn : Mat) (alpha0 : ℚ)
    (dm1 : Option Vec) (p rank : ℕ) (kE3 : Mat → Mat → ℕ → Mat)
    (kE2M1 : Mat → Vec → Mat → ℕ → Mat)
    (hnd : 1 ≤ docs.length) (hv : 1 ≤ vocabOf docs)
    (hp1 : 1 ≤ p) (hpn : p ≤ docs.length)
    (hxv : vocabOf docs = whn.length) (hk : 1 ≤ vocabOf whn)
    (hm1 : ∀ v, dm1 = some v → v.length = vocabOf docs)
    (ha : 0 < alpha0) (hr : rank < p) :
    whiten_m3_dist docs whn alpha0 dm1 p rank kE3 kE2M1 =
      ((if dm1.isSome then ([] : List StoreEvent) else
          [StoreEvent.init KEY_M1 [vocabOf docs], StoreEvent.push KEY_M1,
            StoreEvent.pull KEY_M1, StoreEvent.close]) ++
        [StoreEvent.init KEY_WHITENED_E3 [vocabOf whn, vocabOf whn ^ 2],
          StoreEvent.init KEY_WHITENED_E2M1 [vocabOf whn, vocabOf whn ^ 2],
          StoreEvent.push KEY_WHITENED_E3, StoreEvent.push KEY_WHITENED_E2M1,
          StoreEvent.pull KEY_WHITENED_E3, StoreEvent.pull KEY_WHITENED_E2M1,
          StoreEvent.close],
        Except.ok (adjustWhiten (reducedE3 docs whn p kE3)
          (reducedE2M1 docs (dm1.getD (reducedM1 docs p)) whn p kE2M1)
          (dm1.getD (reducedM1 docs p)) whn alpha0)) := by
  cases dm1 with
  | none =>
      simp only [whiten_m3_dist]
      rw [if_pos ⟨hnd, hv⟩, if_pos hpn, if_pos ⟨hxv, hk⟩,
        if_pos (show Option.all (fun v => List.length v == vocabOf docs) none =
          true from rfl), if_pos ha]
      simp [moment1_dist_eval docs p rank hnd hv hp1 hpn hr,
        whitenScope_eval docs whn alpha0 _ p rank kE3 kE2M1 _ hr]
  | some m1 =>
      have hlen : (m1.length == vocabOf docs) = true := by
        simp [hm1 m1 rfl]
      simp only [whiten_m3_dist]
      rw [if_pos ⟨hnd, hv⟩, if_pos hpn, if_pos ⟨hxv, hk⟩]
      rw [show (Option.all (fun v => v.length == vocabOf docs) (some m1)) = true
        from hlen, if_pos rfl, if_pos ha]
      simp [whitenScope_eval docs whn alpha0 m1 p rank kE3 kE2M1 [] hr]

theorem vadd_cons (x y : ℚ) (a b : Vec) :
    vadd (x :: a) (y :: b) = (x + y) :: vadd a b := rfl

theorem vsmul_cons (c x : ℚ) (v : Vec) :
    vsmul c (x :: v) = (c * x) :: vsmul c v := rfl

theorem vadd_assoc (a b c : Vec) : vadd (vadd a b) c = vadd a (vadd b c) := by
  induction a generalizing b c with
  | nil => rfl
  | cons x a ih =>
      cases b with
      | nil => rfl
      | cons y b =>
          cases c with
          | nil => rfl
          | cons z c => rw [vadd_cons, vadd_cons, vadd_cons, vadd_cons, ih,
              add_assoc]

theorem vadd_vzero (x : Vec) (n : ℕ) (h : x.length = n) :
    vadd x (vzero n) = x := by
  induction x generalizing n with
  | nil => rfl
  | cons a x ih =>
      cases n with
      | zero => simp at h
      | succ m =>
          show vadd (a :: x) (0 :: vzero m) = a :: x
          rw [vadd_cons, add_zero, ih m (by simpa using h)]

theorem vzero_vadd (x : Vec) (n : ℕ) (h : x.length = n) :
    vadd (vzero n) x = x := by
  induction x generalizing n with
  | nil =>
      cases n with
      | zero => rfl
      | succ m => simp at h
  | cons a x ih =>
      cases n with
      | zero => simp at h
      | succ m =>
          show vadd (0 :: vzero m) (a :: x) = a :: x
          rw [vadd_cons, zero_add, ih m (by simpa using h)]

theorem vsum_length (n : ℕ) (l : List Vec) (h : ∀ v ∈ l, v.length = n) :
    (vsum n l).length = n := by
  induction l with
  | nil => simp [vsum, vzero]
  | cons v l ih =>
      have hv := h v (by simp)
      have hrest : ∀ w ∈ l, w.length = n := fun w hw => h w (by simp [hw])
      show (vadd v (vsum n l)).length = n
      rw [vadd, List.length_zipWith, hv, ih hrest, min_self]

theorem vsum_append (n : ℕ) (l1 l2 : List Vec)
    (h2 : ∀ v ∈ l2, v.length = n) :
    vsum n (l1 ++ l2) = vadd (vsum n l1) (vsum n l2) := by
  induction l1 with
  | nil =>
      show vsum n l2 = vadd (vzero n) (vsum n l2)
      exact (vzero_vadd (vsum n l2) n (vsum_length n l2 h2)).symm
  | cons v l1 ih =>
      show vadd v (vsum n (l1 ++ l2)) = vadd (vadd v (vsum n l1)) (vsum n l2)
      rw [ih, ← vadd_assoc]

theorem vsmul_vadd (c : ℚ) (a b : Vec) :
    vsmul c (vadd a b) = vadd (vsmul c a) (vsmul c b) := by
  induction a generalizing b with
  | nil => rfl
  | cons x a ih =>
      cases b with
      | nil => rfl
      | cons y b =>
          rw [vadd_cons, vsmul_cons, vsmul_cons, vsmul_cons, vadd_cons, ih,
            mul_add]

theorem vsmul_vzero (c : ℚ) (n : ℕ) : vsmul c (vzero n) = vzero n := by
  simp [vsmul, vzero, List.map_replicate]

theorem vsum_map_vsmul (c : ℚ) (n : ℕ) (l : List Vec) :
    vsum n (l.map (vsmul c)) = vsmul c (vsum n l) := by
  induction l with
  | nil => exact (vsmul_vzero c n).symm
  | cons v l ih =>
      show vadd (vsmul c v) (vsum n (l.map (vsmul c))) =
        vsmul c (vadd v (vsum n l))
      rw [ih, vsmul_vadd]

theorem vsum_flatten (n : ℕ) (ll : List (List Vec))
    (h : ∀ v ∈ ll.flatten, v.length = n) :
    vsum n (ll.map (vsum n)) = vsum n ll.flatten := by
  induction ll with
  | nil => simp
  | cons c ll ih =>
      have hrest : ∀ v ∈ ll.flatten, v.length = n := fun v hv =>
        h v (by simp [hv])
      rw [List.map_cons, List.flatten_cons,
        vsum_append n c ll.flatten hrest]
      show vadd (vsum n c) (vsum n (ll.map (vsum n))) =
        vadd (vsum n c) (vsum n ll.flatten)
      rw [ih hrest]

theorem slices_flatten_take {α : Type} (l : List α) (s j : ℕ) :
    ((List.range j).map (fun i => (l.drop (i * s)).take s)).flatten =
      l.take (j * s) := by
  induction j with
  | zero => simp
  | succ j ih =>
      rw [List.range_succ, List.map_append, List.flatten_append, ih]
      simp [Nat.succ_mul, List.take_add]

theorem equal_partitions_flatten {α : Type} (l : List α) (p : ℕ)
    (hp : 1 ≤ p) (hpn : p ≤ l.length) :
    ((equal_partitions l.length p).map
      (fun pr => (l.drop pr.1).take (pr.2 - pr.1))).flatten = l := by
  obtain ⟨q, rfl⟩ : ∃ q, p = q + 1 := ⟨p - 1, (Nat.succ_pred_eq_of_pos hp).symm⟩
  rw [equal_partitions, List.map_map, List.range_succ, List.map_append,
    List.flatten_append]
  have hmap : (List.range q).map
      ((fun pr : ℕ × ℕ => (l.drop pr.1).take (pr.2 - pr.1)) ∘
        (fun i => (i * (l.length / (q + 1)),
          if i = q + 1 - 1 then l.length
          else (i + 1) * (l.length / (q + 1))))) =
      (List.range q).map (fun i => (l.drop (i * (l.length / (q + 1)))).take
        (l.length / (q + 1))) := by
    refine List.map_congr_left (fun i hi => ?_)
    have hiq : i ≠ q + 1 - 1 := by
      simp only [List.mem_range] at hi
      omega
    simp only [Function.comp_apply, if_neg hiq, Nat.succ_mul,
      Nat.add_sub_cancel_left]
  rw [hmap, slices_flatten_take]
  have hlast : ((fun pr : ℕ × ℕ => (l.drop pr.1).take (pr.2 - pr.1)) ∘
      (fun i => (i * (l.length / (q + 1)),
        if i = q + 1 - 1 then l.length
        else (i + 1) * (l.length / (q + 1))))) q =
      l.drop (q * (l.length / (q + 1))) := by
    simp only [Function.comp_apply, if_pos (Nat.add_sub_cancel q 1).symm.symm]
    rw [if_pos (by omega : q = q + 1 - 1)]
    refine List.take_of_length_le ?_
    simp [List.length_drop]
  simp only [List.map_cons, List.map_nil, List.flatten_cons, List.flatten_nil,
    List.append_nil]
  rw [hlast, List.take_append_drop]

theorem rect_pload (docs : Mat) (n : ℕ) (h : ∀ r ∈ docs, r.length = n)
    (a b : ℕ) : ∀ r ∈ pload docs a b, r.length = n := fun r hr =>
  h r (List.drop_subset a docs (List.take_subset _ _ hr))

theorem reducedM1_eq (docs : Mat) (p : ℕ)
    (hrect : ∀ r ∈ docs, r.length = vocabOf docs)
    (hp : 1 ≤ p) (hpn : p ≤ docs.length) :
    reducedM1 docs p =
      vsmul (1 / (docs.length : ℚ)) (vsum (vocabOf docs) docs) := by
  unfold reducedM1 contrib_m1
  rw [show (fun pr : ℕ × ℕ => vsmul (1 / (docs.length : ℚ))
      (vsum (vocabOf docs) (pload docs pr.1 pr.2))) =
    (vsmul (1 / (docs.length : ℚ))) ∘
      ((vsum (vocabOf docs)) ∘ (fun pr : ℕ × ℕ => pload docs pr.1 pr.2))
    from rfl]
  rw [← List.map_map, vsum_map_vsmul]
  congr 1
  rw [← List.map_map]
  have hflat : ((equal_partitions docs.length p).map
      (fun pr : ℕ × ℕ => pload docs pr.1 pr.2)).flatten = docs := by
    rw [show (fun pr : ℕ × ℕ => pload docs pr.1 pr.2) =
      (fun pr : ℕ × ℕ => (docs.drop pr.1).take (pr.2 - pr.1)) from rfl]
    exact equal_partitions_flatten docs p hp hpn
  have hmem : ∀ v ∈ ((equal_partitions docs.length p).map
      (fun pr : ℕ × ℕ => pload docs pr.1 pr.2)).flatten,
      v.length = vocabOf docs := by
    rw [hflat]; exact hrect
  rw [vsum_flatten (vocabOf docs) _ hmem, hflat]

theorem reducedM1_length (docs : Mat) (p : ℕ)
    (hrect : ∀ r ∈ docs, r.length = vocabOf docs)
    (hp : 1 ≤ p) (hpn : p ≤ docs.length) :
    (reducedM1 docs p).length = vocabOf docs := by
  rw [reducedM1_eq docs p hrect hp hpn, vsmul, List.length_map]
  exact vsum_length _ _ hrect

/-- C3: splitting an `n_docs`-row collection into `p` partitions,
`1 ≤ p ≤ n_docs` (even or uneven splits, the last partition holding the
remainder rows), and computing the first moment at any worker gives the same
value as computing it with a single partition. -/
theorem moment1_dist_partition_invariant (docs : Mat) (p rank : ℕ)
    (hrect : ∀ r ∈ docs, r.length = vocabOf docs)
    (hv : 1 ≤ vocabOf docs) (hp : 1 ≤ p) (hpn : p ≤ docs.length)
    (hr : rank < p) :
    (moment1_dist docs p rank).2 = (moment1_dist docs 1 0).2 := by
  have hnd : 1 ≤ docs.length := le_trans hp hpn
  rw [moment1_dist_eval docs p rank hnd hv hp hpn hr,
    moment1_dist_eval docs 1 0 hnd hv le_rfl hnd Nat.one_pos]
  simp only
  rw [reducedM1_eq docs p hrect hp hpn, reducedM1_eq docs 1 hrect le_rfl hnd]

/-- Witness for C3 on a concrete 4-document, 2-term collection split into 3
uneven partitions. -/
theorem moment1_dist_partition_invariant_witness :
    (∀ r ∈ ([[1, 2], [3, 4], [5, 6], [7, 8]] : Mat),
        r.length = vocabOf [[1, 2], [3, 4], [5, 6], [7, 8]]) ∧
      (moment1_dist [[1, 2], [3, 4], [5, 6], [7, 8]] 3 1).2 =
        (moment1_dist [[1, 2], [3, 4], [5, 6], [7, 8]] 1 0).2 :=
  ⟨by decide, moment1_dist_partition_invariant
    [[1, 2], [3, 4], [5, 6], [7, 8]] 3 1 (by decide) (by decide) (by decide)
    (by decide) (by decide)⟩

/-- C8: on a collection with a single row `v` and a single partition, the
first moment is `v` itself (normalization divides by `n_docs = 1`). -/
theorem moment1_dist_single_row (v : Vec) (hv : v ≠ []) :
    (moment1_dist [v] 1 0).2 = Except.ok v := by
  have hlen : 1 ≤ v.length := List.length_pos.mpr hv
  have hrect : ∀ r ∈ [v], r.length = vocabOf [v] := by
    intro r hr
    rw [List.mem_singleton] at hr
    simp [hr, vocabOf]
  rw [moment1_dist_eval [v] 1 0 (by simp) (by simpa [vocabOf]) le_rfl
    (by simp) Nat.one_pos]
  simp only
  rw [reducedM1_eq [v] 1 hrect le_rfl (by simp)]
  show Except.ok (vsmul (1 / ((1 : ℕ) : ℚ)) (vadd v (vzero (vocabOf [v])))) = _
  rw [vadd_vzero v (vocabOf [v]) (by simp [vocabOf]),
    show (1 / ((1 : ℕ) : ℚ)) = 1 by norm_num]
  exact congrArg Except.ok (by simp [vsmul])

/-- Witness for C8 at `v = [3, 5]`. -/
theorem moment1_dist_single_row_witness :
    ([3, 5] : Vec) ≠ [] ∧ (moment1_dist [[3, 5]] 1 0).2 = Except.ok [3, 5] :=
  ⟨by decide, moment1_dist_single_row [3, 5] (by decide)⟩

/-- C1: for every valid input, `prod_m2_x_dist` returns the globally reduced
product minus `alpha0 / (alpha0 + 1)` times `outer(m1, m1 . X)` where `m1`
is the (supplied or recursively computed) global first moment; the trace
shows the single pull of the product key happening before the return, and
the reduced product is the plain sum of the per-partition kernel
contributions with no per-partition correction. -/
theorem prod_m2_x_dist_adjust_once (docs test_x : Mat) (alpha0 : ℚ)
    (dm1 : Option Vec) (p rank : ℕ) (kE2X : Mat → Mat → ℕ → Mat)
    (hnd : 1 ≤ docs.length) (hv : 1 ≤ vocabOf docs)
    (hp1 : 1 ≤ p) (hpn : p ≤ docs.length)
    (hxv : vocabOf docs = test_x.length) (hk : 1 ≤ vocabOf test_x)
    (hm1 : ∀ v, dm1 = some v → v.length = vocabOf docs)
    (ha : 0 < alpha0) (hr : rank < p) :
    prod_m2_x_dist docs test_x alpha0 dm1 p rank kE2X =
      ((if dm1.isSome then ([] : List StoreEvent) else
          [StoreEvent.init KEY_M1 [vocabOf docs], StoreEvent.push KEY_M1,
            StoreEvent.pull KEY_M1, StoreEvent.close]) ++
        [StoreEvent.init KEY_PROD_M2X [vocabOf docs, vocabOf test_x],
          StoreEvent.push KEY_PROD_M2X, StoreEvent.pull KEY_PROD_M2X,
          StoreEvent.close],
        Except.ok (matSub (reducedProdE2X docs test_x p kE2X)
          (matSmul (alpha0 / (alpha0 + 1))
            (outer (dm1.getD (reducedM1 docs p))
              (dotMat (dm1.getD (reducedM1 docs p)) test_x))))) := by
  rw [prod_m2_x_dist_eval docs test_x alpha0 dm1 p rank kE2X hnd hv hp1 hpn
    hxv hk hm1 ha hr]
  rfl

/-- Witness for C1 on a 2-document, 2-term collection with a supplied first
moment, one factor and two partitions. -/
theorem prod_m2_x_dist_adjust_once_witness :
    prod_m2_x_dist [[1, 2], [3, 4]] [[1], [1]] 2 (some [2, 3]) 2 0
        (fun part _ _ => part.map (fun r => [r.sum])) =
      (([] : List StoreEvent) ++
        [StoreEvent.init KEY_PROD_M2X [2, 1], StoreEvent.push KEY_PROD_M2X,
          StoreEvent.pull KEY_PROD_M2X, StoreEvent.close],
        Except.ok (matSub (reducedProdE2X [[1, 2], [3, 4]] [[1], [1]] 2
            (fun part _ _ => part.map (fun r => [r.sum])))
          (matSmul ((2 : ℚ) / (2 + 1))
            (outer [2, 3] (dotMat [2, 3] [[1], [1]]))))) :=
  prod_m2_x_dist_adjust_once [[1, 2], [3, 4]] [[1], [1]] 2 (some [2, 3]) 2 0
    (fun part _ _ => part.map (fun r => [r.sum])) (by decide) (by decide)
    (by decide) (by decide) (by decide) (by decide)
    (fun v hvv => by cases hvv; decide) (by norm_num) (by decide)

/-- C2: for every valid input, `whiten_m3_dist` returns
`reduced_E3 - [alpha0/(alpha0+2)] * reduced_E2M1
+ [2*alpha0^2/((alpha0+1)*(alpha0+2))] * whitened_m1_cube`, the two tensors
being independently reduced plain sums of per-partition contributions; the
trace shows both pulls happening once, before the single combination. -/
theorem whiten_m3_dist_adjust_once (docs whn : Mat) (alpha0 : ℚ)
    (dm1 : Option Vec) (p rank : ℕ) (kE3 : Mat → Mat → ℕ → Mat)
    (kE2M1 : Mat → Vec → Mat → ℕ → Mat)
    (hnd : 1 ≤ docs.length) (hv : 1 ≤ vocabOf docs)
    (hp1 : 1 ≤ p) (hpn : p ≤ docs.length)
    (hxv : vocabOf docs = whn.length) (hk : 1 ≤ vocabOf whn)
    (hm1 : ∀ v, dm1 = some v → v.length = vocabOf docs)
    (ha : 0 < alpha0) (hr : rank < p) :
    whiten_m3_dist docs whn alpha0 dm1 p rank kE3 kE2M1 =
      ((if dm1.isSome then ([] : List StoreEvent) else
          [StoreEvent.init KEY_M1 [vocabOf docs], StoreEvent.push KEY_M1,
            StoreEvent.pull KEY_M1, StoreEvent.close]) ++
        [StoreEvent.init KEY_WHITENED_E3 [vocabOf whn, vocabOf whn ^ 2],
          StoreEvent.init KEY_WHITENED_E2M1 [vocabOf whn, vocabOf whn ^ 2],
          StoreEvent.push KEY_WHITENED_E3, StoreEvent.push KEY_WHITENED_E2M1,
          StoreEvent.pull KEY_WHITENED_E3, StoreEvent.pull KEY_WHITENED_E2M1,
          StoreEvent.close],
        Except.ok (matAdd
          (matSub (reducedE3 docs whn p kE3)
            (matSmul (alpha0 / (alpha0 + 2))
              (reducedE2M1 docs (dm1.getD (reducedM1 docs p)) whn p kE2M1)))
          (matSmul (2 * alpha0 ^ 2 / ((alpha0 + 1) * (alpha0 + 2)))
            (whitenedM1cube
              (dotMat (dm1.getD (reducedM1 docs p)) whn))))) := by
  rw [whiten_m3_dist_eval docs whn alpha0 dm1 p rank kE3 kE2M1 hnd hv hp1 hpn
    hxv hk hm1 ha hr]
  simp only [adjustWhiten, div_div]

/-- Witness for C2 on a 2-document, 2-term collection with a supplied first
moment, one factor and two partitions. -/
theorem whiten_m3_dist_adjust_once_witness :
    whiten_m3_dist [[1, 2], [3, 4]] [[1], [1]] 1 (some [2, 3]) 2 1
        (fun _ _ _ => [[5]]) (fun _ _ _ _ => [[7]]) =
      (([] : List StoreEvent) ++
        [StoreEvent.init KEY_WHITENED_E3 [1, 1],
          StoreEvent.init KEY_WHITENED_E2M1 [1, 1],
          StoreEvent.push KEY_WHITENED_E3, StoreEvent.push KEY_WHITENED_E2M1,
          StoreEvent.pull KEY_WHITENED_E3, StoreEvent.pull KEY_WHITENED_E2M1,
          StoreEvent.close],
        Except.ok (matAdd
          (matSub (reducedE3 [[1, 2], [3, 4]] [[1], [1]] 2 (fun _ _ _ => [[5]]))
            (matSmul ((1 : ℚ) / (1 + 2))
              (reducedE2M1 [[1, 2], [3, 4]] [2, 3] [[1], [1]] 2
                (fun _ _ _ _ => [[7]]))))
          (matSmul (2 * (1 : ℚ) ^ 2 / ((1 + 1) * (1 + 2)))
            (whitenedM1cube (dotMat [2, 3] [[1], [1]]))))) :=
  whiten_m3_dist_adjust_once [[1, 2], [3, 4]] [[1], [1]] 1 (some [2, 3]) 2 1
    (fun _ _ _ => [[5]]) (fun _ _ _ _ => [[7]]) (by decide) (by decide)
    (by decide) (by decide) (by decide) (by decide)
    (fun v hvv => by cases hvv; decide) (by norm_num) (by decide)

/-- C5: at every worker rank the three orchestrators return the same value:
the pulled tensors are the all-reduce sums over all workers' contributions,
so the result does not depend on the calling rank. -/
theorem orchestrators_rank_independent (docs test_x whn : Mat) (alpha0 : ℚ)
    (dm1 : Option Vec) (p r1 r2 : ℕ) (kE2X kE3 : Mat → Mat → ℕ → Mat)
    (kE2M1 : Mat → Vec → Mat → ℕ → Mat)
    (hnd : 1 ≤ docs.length) (hv : 1 ≤ vocabOf docs)
    (hp1 : 1 ≤ p) (hpn : p ≤ docs.length)
    (hxv : vocabOf docs = test_x.length) (hk : 1 ≤ vocabOf test_x)
    (hwv : vocabOf docs = whn.length) (hwk : 1 ≤ vocabOf whn)
    (hm1 : ∀ v, dm1 = some v → v.length = vocabOf docs)
    (ha : 0 < alpha0) (hr1 : r1 < p) (hr2 : r2 < p) :
    (moment1_dist docs p r1).2 = (moment1_dist docs p r2).2 ∧
      (prod_m2_x_dist docs test_x alpha0 dm1 p r1 kE2X).2 =
        (prod_m2_x_dist docs test_x alpha0 dm1 p r2 kE2X).2 ∧
      (whiten_m3_dist docs whn alpha0 dm1 p r1 kE3 kE2M1).2 =
        (whiten_m3_dist docs whn alpha0 dm1 p r2 kE3 kE2M1).2 := by
  refine ⟨?_, ?_, ?_⟩
  · rw [moment1_dist_eval docs p r1 hnd hv hp1 hpn hr1,
      moment1_dist_eval docs p r2 hnd hv hp1 hpn hr2]
  · rw [prod_m2_x_dist_eval docs test_x alpha0 dm1 p r1 kE2X hnd hv hp1 hpn
      hxv hk hm1 ha hr1,
      prod_m2_x_dist_eval docs test_x alpha0 dm1 p r2 kE2X hnd hv hp1 hpn
      hxv hk hm1 ha hr2]
  · rw [whiten_m3_dist_eval docs whn alpha0 dm1 p r1 kE3 kE2M1 hnd hv hp1 hpn
      hwv hwk hm1 ha hr1,
      whiten_m3_dist_eval docs whn alpha0 dm1 p r2 kE3 kE2M1 hnd hv hp1 hpn
      hwv hwk hm1 ha hr2]

/-- Witness for C5: ranks 0 and 1 of a two-partition run agree on all three
orchestrators. -/
theorem orchestrators_rank_independent_witness :
    (moment1_dist [[1, 2], [3, 4]] 2 0).2 =
        (moment1_dist [[1, 2], [3, 4]] 2 1).2 ∧
      (prod_m2_x_dist [[1, 2], [3, 4]] [[1], [1]] 2 none 2 0
          (fun _ _ _ => [[5], [6]])).2 =
        (prod_m2_x_dist [[1, 2], [3, 4]] [[1], [1]] 2 none 2 1
          (fun _ _ _ => [[5], [6]])).2 ∧
      (whiten_m3_dist [[1, 2], [3, 4]] [[1], [1]] 2 none 2 0
          (fun _ _ _ => [[5]]) (fun _ _ _ _ => [[7]])).2 =
        (whiten_m3_dist [[1, 2], [3, 4]] [[1], [1]] 2 none 2 1
          (fun _ _ _ => [[5]]) (fun _ _ _ _ => [[7]])).2 :=
  orchestrators_rank_independent [[1, 2], [3, 4]] [[1], [1]] [[1], [1]] 2
    none 2 0 1 (fun _ _ _ => [[5], [6]]) (fun _ _ _ => [[5]])
    (fun _ _ _ _ => [[7]]) (by decide) (by decide) (by decide) (by decide)
    (by decide) (by decide) (by decide) (by decide)
    (fun v hvv => by cases hvv) (by norm_num) (by decide) (by decide)

/-- C6: omitting `docs_m1` gives the same result as supplying the value the
first-moment orchestration returns: `prod_m2_x_dist` and `whiten_m3_dist`
compute the missing first moment recursively and use it exactly like a
precomputed one. -/
theorem omitted_m1_equivalent (docs test_x whn : Mat) (alpha0 : ℚ)
    (p rank : ℕ) (kE2X kE3 : Mat → Mat → ℕ → Mat)
    (kE2M1 : Mat → Vec → Mat → ℕ → Mat)
    (hrect : ∀ r ∈ docs, r.length = vocabOf docs)
    (hv : 1 ≤ vocabOf docs) (hp1 : 1 ≤ p) (hpn : p ≤ docs.length)
    (hxv : vocabOf docs = test_x.length) (hk : 1 ≤ vocabOf test_x)
    (hwv : vocabOf docs = whn.length) (hwk : 1 ≤ vocabOf whn)
    (ha : 0 < alpha0) (hr : rank < p) :
    (moment1_dist docs p rank).2 = Except.ok (reducedM1 docs p) ∧
      (prod_m2_x_dist docs test_x alpha0 none p rank kE2X).2 =
        (prod_m2_x_dist docs test_x alpha0 (some (reducedM1 docs p)) p rank
          kE2X).2 ∧
      (whiten_m3_dist docs whn alpha0 none p rank kE3 kE2M1).2 =
        (whiten_m3_dist docs whn alpha0 (some (reducedM1 docs p)) p rank
          kE3 kE2M1).2 := by
  have hnd : 1 ≤ docs.length := le_trans hp1 hpn
  have hm1some : ∀ v, (some (reducedM1 docs p) : Option Vec) = some v →
      v.length = vocabOf docs := by
    intro v hvv
    cases hvv
    exact reducedM1_length docs p hrect hp1 hpn
  have hm1none : ∀ v, (none : Option Vec) = some v →
      v.length = vocabOf docs := fun v hvv => by cases hvv
  refine ⟨?_, ?_, ?_⟩
  · rw [moment1_dist_eval docs p rank hnd hv hp1 hpn hr]
  · rw [prod_m2_x_dist_eval docs test_x alpha0 none p rank kE2X hnd hv hp1
      hpn hxv hk hm1none ha hr,
      prod_m2_x_dist_eval docs test_x alpha0 (some (reducedM1 docs p)) p rank
      kE2X hnd hv hp1 hpn hxv hk hm1some ha hr]
    rfl
  · rw [whiten_m3_dist_eval docs whn alpha0 none p rank kE3 kE2M1 hnd hv hp1
      hpn hwv hwk hm1none ha hr,
      whiten_m3_dist_eval docs whn alpha0 (some (reducedM1 docs p)) p rank
      kE3 kE2M1 hnd hv hp1 hpn hwv hwk hm1some ha hr]
    rfl

/-- Witness for C6 on a 2-document, 2-term collection with two partitions. -/
theorem omitted_m1_equivalent_witness :
    (moment1_dist [[1, 2], [3, 4]] 2 0).2 =
        Except.ok (reducedM1 [[1, 2], [3, 4]] 2) ∧
      (prod_m2_x_dist [[1, 2], [3, 4]] [[1], [1]] 2 none 2 0
          (fun _ _ _ => [[5], [6]])).2 =
        (prod_m2_x_dist [[1, 2], [3, 4]] [[1], [1]] 2
          (some (reducedM1 [[1, 2], [3, 4]] 2)) 2 0
          (fun _ _ _ => [[5], [6]])).2 ∧
      (whiten_m3_dist [[1, 2], [3, 4]] [[1], [1]] 2 none 2 0
          (fun _ _ _ => [[5]]) (fun _ _ _ _ => [[7]])).2 =
        (whiten_m3_dist [[1, 2], [3, 4]] [[1], [1]] 2
          (some (reducedM1 [[1, 2], [3, 4]] 2)) 2 0
          (fun _ _ _ => [[5]]) (fun _ _ _ _ => [[7]])).2 :=
  omitted_m1_equivalent [[1, 2], [3, 4]] [[1], [1]] [[1], [1]] 2 2 0
    (fun _ _ _ => [[5], [6]]) (fun _ _ _ => [[5]]) (fun _ _ _ _ => [[7]])
    (by decide) (by decide) (by decide) (by decide) (by decide) (by decide)
    (by decide) (by decide) (by norm_num) (by decide)

/-- C4 (code bug): `whiten_m3_dist` checks only `n_partitions <= n_docs`
(line 148) where its two siblings also assert `n_partitions >= 1`
(lines 40 and 84); with a supplied first moment and `n_partitions = 0` the
call passes every assert, performs both `init` operations on the reduction
store, and only then fails with a non-assertion error at the partition
lookup. -/
theorem whiten_m3_dist_missing_lower_bound :
    whiten_m3_dist [[1]] [[1]] 1 (some [1]) 0 0 (fun _ _ _ => [[5]])
        (fun _ _ _ _ => [[7]]) =
      ([StoreEvent.init KEY_WHITENED_E3 [1, 1],
        StoreEvent.init KEY_WHITENED_E2M1 [1, 1]],
        Except.error "TypeError") := by
  rfl

/-- Module-level mutable state of `cumulants_dist`: the process-wide
`KVSTORE` created once at import time (line 11).  No orchestrator reads or
writes it — each invocation creates, uses and closes its own fresh local
store (lines 42, 95, 159) — so the state-transformer semantics of a call
returns the module state unchanged alongside the pure result. -/
structure ModuleStore : Type where
  slots : List (ℕ × Mat)

/-- State-transformer form of `moment1_dist`: the body never references the
module-level store. -/
def moment1_dist_call (st : ModuleStore) (docs : Mat) (p rank : ℕ) :
    ModuleStore × (List StoreEvent × Except String Vec) :=
  (st, moment1_dist docs p rank)

/-- State-transformer form of `prod_m2_x_dist`: the body never references
the module-level store. -/
def prod_m2_x_dist_call (st : ModuleStore) (docs test_x : Mat) (alpha0 : ℚ)
    (dm1 : Option Vec) (p rank : ℕ) (kE2X : Mat → Mat → ℕ → Mat) :
    ModuleStore × (List StoreEvent × Except String Mat) :=
  (st, prod_m2_x_dist docs test_x alpha0 dm1 p rank kE2X)

/-- State-transformer form of `whiten_m3_dist`: the body never references
the module-level store. -/
def whiten_m3_dist_call (st : ModuleStore) (docs whn : Mat) (alpha0 : ℚ)
    (dm1 : Option Vec) (p rank : ℕ) (kE3 : Mat → Mat → ℕ → Mat)
    (kE2M1 : Mat → Vec → Mat → ℕ → Mat) :
    ModuleStore × (List StoreEvent × Except String Mat) :=
  (st, whiten_m3_dist docs whn alpha0 dm1 p rank kE3 kE2M1)

/-- C7: calling any orchestrator twice in sequence with identical arguments
and identical partition count yields identical results (trace and value),
and the module state after both calls is the state before the first: no
mutable global state written by one invocation affects a later one, each
call working in its own short-lived zero-initialized reduction scope. -/
theorem orchestrators_idempotent (st : ModuleStore) (docs test_x whn : Mat)
    (alpha0 : ℚ) (dm1 : Option Vec) (p rank : ℕ)
    (kE2X kE3 : Mat → Mat → ℕ → Mat)
    (kE2M1 : Mat → Vec → Mat → ℕ → Mat) :
    ((moment1_dist_call (moment1_dist_call st docs p rank).1 docs p rank).2 =
        (moment1_dist_call st docs p rank).2 ∧
      (moment1_dist_call (moment1_dist_call st docs p rank).1 docs p rank).1 =
        st) ∧
    ((prod_m2_x_dist_call
        (prod_m2_x_dist_call st docs test_x alpha0 dm1 p rank kE2X).1
        docs test_x alpha0 dm1 p rank kE2X).2 =
        (prod_m2_x_dist_call st docs test_x alpha0 dm1 p rank kE2X).2 ∧
      (prod_m2_x_dist_call
        (prod_m2_x_dist_call st docs test_x alpha0 dm1 p rank kE2X).1
        docs test_x alpha0 dm1 p rank kE2X).1 = st) ∧
    ((whiten_m3_dist_call
        (whiten_m3_dist_call st docs whn alpha0 dm1 p rank kE3 kE2M1).1
        docs whn alpha0 dm1 p rank kE3 kE2M1).2 =
        (whiten_m3_dist_call st docs whn alpha0 dm1 p rank kE3 kE2M1).2 ∧
      (whiten_m3_dist_call
        (whiten_m3_dist_call st docs whn alpha0 dm1 p rank kE3 kE2M1).1
        docs whn alpha0 dm1 p rank kE3 kE2M1).1 = st) :=
  ⟨⟨rfl, rfl⟩, ⟨rfl, rfl⟩, ⟨rfl, rfl⟩⟩

/-- Matrices with identical row-length profiles (identical numpy shapes). -/
def sameShape (a b : Mat) : Prop := a.map List.length = b.map List.length

instance (a b : Mat) : Decidable (sameShape a b) := by
  unfold sameShape; infer_instance

theorem row_dev (c : ℚ) (r s : Vec) :
    r.length = s.length →
    List.zipWith (fun x y => x - y)
        (List.zipWith (fun x y => x - y) r (vsmul c s))
        (List.zipWith (fun x y => x - y) r s) =
      vsmul (1 - c) s := by
  induction r generalizing s with
  | nil =>
      intro h
      cases s with
      | nil => rfl
      | cons y s => simp at h
  | cons x r ih =>
      intro h
      cases s with
      | nil => simp at h
      | cons y s =>
          have hs : r.length = s.length := by simpa using h
          show List.zipWith (fun x y => x - y)
              (List.zipWith (fun x y => x - y) (x :: r) ((c * y) :: vsmul c s))
              ((x - y) :: List.zipWith (fun x y => x - y) r s) =
            ((1 - c) * y) :: vsmul (1 - c) s
          rw [List.zipWith_cons_cons, List.zipWith_cons_cons, ih s hs]
          congr 1
          ring

theorem mat_dev (c : ℚ) (a b : Mat) (h : sameShape a b) :
    matSub (matSub a (matSmul c b)) (matSub a b) = matSmul (1 - c) b := by
  induction a generalizing b with
  | nil =>
      cases b with
      | nil => rfl
      | cons s b => simp [sameShape] at h
  | cons r a ih =>
      cases b with
      | nil => simp [sameShape] at h
      | cons s b =>
          simp only [sameShape, List.map_cons, List.cons.injEq] at h
          simp only [matSub, matSmul, List.map_cons, List.zipWith_cons_cons]
          rw [show List.map (vsmul c) b = matSmul c b from rfl,
            show List.map (vsmul (1 - c)) b = matSmul (1 - c) b from rfl]
          rw [show List.zipWith
              (fun r s => List.zipWith (fun x y => x - y) r s)
              (List.zipWith (fun r s => List.zipWith (fun x y => x - y) r s)
                a (matSmul c b))
              (List.zipWith (fun r s => List.zipWith (fun x y => x - y) r s)
                a b) =
            matSub (matSub a (matSmul c b)) (matSub a b) from rfl]
          rw [ih b h.2, row_dev c r s h.1]

/-- Largest absolute value of an entry of a matrix (zero when empty). -/
def matAbsBound (a : Mat) : ℚ :=
  (a.flatten.map (fun x => |x|)).foldr max 0

theorem le_foldr_max (l : List ℚ) (x : ℚ) (hx : x ∈ l) :
    x ≤ l.foldr max 0 := by
  induction l with
  | nil => cases hx
  | cons y l ih =>
      rcases List.mem_cons.mp hx with h | h
      · rw [h, List.foldr_cons]; exact le_max_left _ _
      · exact le_trans (ih h) (le_max_right _ _)

theorem abs_le_matAbsBound (a : Mat) (x : ℚ) (hx : x ∈ a.flatten) :
    |x| ≤ matAbsBound a :=
  le_foldr_max _ _ (List.mem_map_of_mem (fun y => |y|) hx)

theorem flatten_matSmul (c : ℚ) (b : Mat) :
    (matSmul c b).flatten = b.flatten.map (fun x => c * x) := by
  rw [List.map_flatten]
  rfl

/-- Kernel used at concrete inputs: a constant zero 1-by-1 contribution. -/
def kZero : Mat → Mat → ℕ → Mat := fun _ _ _ => [[0]]

theorem reducedProd_kZero : reducedProdE2X [[1]] [[1]] 1 kZero = [[0]] := by
  norm_num [reducedProdE2X, msum, matAdd, zeroMat, vzero, vadd, kZero,
    equal_partitions, pload, vocabOf, List.range_succ, List.range_zero,
    Function.comp]

theorem prod_simple_eval (alpha0 : ℚ) (ha : 0 < alpha0) :
    (prod_m2_x_dist [[1]] [[1]] alpha0 (some [1]) 1 0 kZero).2 =
      Except.ok [[-(alpha0 / (alpha0 + 1))]] := by
  rw [prod_m2_x_dist_eval [[1]] [[1]] alpha0 (some [1]) 1 0 kZero
    (by decide) (by decide) le_rfl (by decide) (by decide) (by decide)
    (fun v hvv => by cases hvv; rfl) ha (by decide)]
  norm_num [adjustProd, reducedProdE2X, msum, matAdd, zeroMat, vzero, vadd,
    matSub, matSmul, vsmul, outer, dotMat, vsum, equal_partitions, pload,
    kZero, vocabOf, List.range_succ, List.range_zero, Function.comp]

/-- C9 counterexample: at a concrete valid input the result of
`prod_m2_x_dist` does not converge to the uncorrected reduced product as
`alpha0` grows without bound — the entrywise deviation stays at least `1/2`
for every `alpha0 ≥ 1`, because the adjustment coefficient
`alpha0 / (alpha0 + 1)` tends to `1`, not to `0`. -/
theorem prod_limit_claim_false :
    ¬ (∀ ε : ℚ, 0 < ε → ∃ N : ℚ, ∀ alpha0 : ℚ, N ≤ alpha0 →
      ∀ x ∈ (matSub
          ((prod_m2_x_dist [[1]] [[1]] alpha0 (some [1]) 1 0
            kZero).2.toOption.getD [])
          (reducedProdE2X [[1]] [[1]] 1 kZero)).flatten, |x| < ε) := by
  intro h
  obtain ⟨N, hN⟩ := h (1 / 2) (by norm_num)
  have hα1 : (1 : ℚ) ≤ max N 1 := le_max_right N 1
  have hα0 : (0 : ℚ) < max N 1 := lt_of_lt_of_le one_pos hα1
  have heval := prod_simple_eval (max N 1) hα0
  have hspec := hN (max N 1) (le_max_left N 1)
  rw [heval] at hspec
  have hx : -(max N 1 / (max N 1 + 1)) - 0 ∈
      (matSub [[-(max N 1 / (max N 1 + 1))]]
        (reducedProdE2X [[1]] [[1]] 1 kZero)).flatten := by
    rw [reducedProd_kZero]
    simp [matSub]
  have hlt := hspec _ hx
  have hc0 : 0 < max N 1 / (max N 1 + 1) := div_pos hα0 (by linarith)
  have habs : |(-(max N 1 / (max N 1 + 1)) - 0)| = max N 1 / (max N 1 + 1) := by
    rw [sub_zero, abs_neg, abs_of_pos hc0]
  rw [habs] at hlt
  have hge : (1 : ℚ) / 2 ≤ max N 1 / (max N 1 + 1) := by
    rw [div_le_div_iff₀ (by norm_num) (by linarith)]
    linarith
  linarith

/-- C9 amended: as `alpha0` grows without bound (all other inputs fixed and
valid), the result of `prod_m2_x_dist` converges to
`reduced_product - outer(m1, m1 . X)`: the adjustment coefficient
`alpha0 / (alpha0 + 1)` tends to `1`, so the adjustment term converges to
the full outer-product correction rather than vanishing. -/
theorem prod_m2_x_dist_limit (docs test_x : Mat) (dm1 : Vec) (p rank : ℕ)
    (kE2X : Mat → Mat → ℕ → Mat)
    (hnd : 1 ≤ docs.length) (hv : 1 ≤ vocabOf docs)
    (hp1 : 1 ≤ p) (hpn : p ≤ docs.length)
    (hxv : vocabOf docs = test_x.length) (hk : 1 ≤ vocabOf test_x)
    (hm1 : dm1.length = vocabOf docs)
    (hsh : sameShape (reducedProdE2X docs test_x p kE2X)
      (outer dm1 (dotMat dm1 test_x)))
    (hr : rank < p) :
    ∀ ε : ℚ, 0 < ε → ∃ N : ℚ, ∀ alpha0 : ℚ, N ≤ alpha0 →
      ∀ x ∈ (matSub
          ((prod_m2_x_dist docs test_x alpha0 (some dm1) p rank
            kE2X).2.toOption.getD [])
          (matSub (reducedProdE2X docs test_x p kE2X)
            (outer dm1 (dotMat dm1 test_x)))).flatten,
        |x| < ε := by
  intro ε hε
  set O := outer dm1 (dotMat dm1 test_x) with hO
  refine ⟨max (matAbsBound O / ε) 1, ?_⟩
  intro alpha0 hαN x hx
  have hα1 : (1 : ℚ) ≤ alpha0 := le_trans (le_max_right _ 1) hαN
  have hα0 : (0 : ℚ) < alpha0 := lt_of_lt_of_le one_pos hα1
  have hα1pos : (0 : ℚ) < alpha0 + 1 := by linarith
  rw [prod_m2_x_dist_eval docs test_x alpha0 (some dm1) p rank kE2X hnd hv
    hp1 hpn hxv hk (fun v hvv => by cases hvv; exact hm1) hα0 hr] at hx
  simp only [Except.toOption, Option.getD_some] at hx
  rw [show adjustProd (reducedProdE2X docs test_x p kE2X) dm1 test_x alpha0 =
    matSub (reducedProdE2X docs test_x p kE2X)
      (matSmul (alpha0 / (alpha0 + 1)) O) from rfl] at hx
  rw [mat_dev (alpha0 / (alpha0 + 1)) (reducedProdE2X docs test_x p kE2X) O
    hsh] at hx
  rw [flatten_matSmul] at hx
  obtain ⟨y, hy, hxy⟩ := List.mem_map.mp hx
  have hcoeff : 1 - alpha0 / (alpha0 + 1) = 1 / (alpha0 + 1) := by
    field_simp
  have hbound : |y| ≤ matAbsBound O := abs_le_matAbsBound O y hy
  have hbound0 : 0 ≤ matAbsBound O := le_trans (abs_nonneg y) hbound
  have hxabs : |x| = 1 / (alpha0 + 1) * |y| := by
    rw [← hxy, abs_mul, hcoeff, abs_of_pos (by positivity)]
  have hNle : matAbsBound O / ε ≤ alpha0 := le_trans (le_max_left _ 1) hαN
  have hMlt : matAbsBound O < ε * (alpha0 + 1) := by
    rw [div_le_iff₀ hε] at hNle
    nlinarith
  rw [hxabs]
  calc 1 / (alpha0 + 1) * |y| ≤ 1 / (alpha0 + 1) * matAbsBound O := by
        exact mul_le_mul_of_nonneg_left hbound (by positivity)
    _ < ε := by
        rw [one_div, inv_mul_lt_iff₀ hα1pos]
        linarith [hMlt]

/-- Witness for the amended C9 at a concrete input and `ε = 1/3`:
instantiating the convergence statement. -/
theorem prod_m2_x_dist_limit_witness :
    sameShape (reducedProdE2X [[1]] [[1]] 1 kZero)
        (outer [1] (dotMat [1] [[1]])) ∧
      (∀ ε : ℚ, 0 < ε → ∃ N : ℚ, ∀ alpha0 : ℚ, N ≤ alpha0 →
        ∀ x ∈ (matSub
            ((prod_m2_x_dist [[1]] [[1]] alpha0 (some [1]) 1 0
              kZero).2.toOption.getD [])
            (matSub (reducedProdE2X [[1]] [[1]] 1 kZero)
              (outer [1] (dotMat [1] [[1]])))).flatten,
          |x| < ε) :=
  ⟨by decide, prod_m2_x_dist_limit [[1]] [[1]] [1] 1 0 kZero (by decide)
    (by decide) le_rfl (by decide) (by decide) (by decide) (by decide)
    (by decide) (by decide)⟩

end SpectralLDA
